import Mathlib

/-!
Verification of the `apm` Codex installer (`src/installers/codex.rs`,
`src/installers/mod.rs`) against its natural-language specification.

The Rust code is shallowly embedded: `serde_json::Value` becomes the
inductive `Json` (objects as association lists, with serde's `BTreeMap`
insert/lookup semantics captured by `setA`/`lookupA`); the filesystem
becomes an explicit `FS` state threaded through every operation; code
paths that panic (serde_json's string `IndexMut` on a non-object,
non-null value) return `none`.
-/

namespace Apm

/-- Modelled from the spec: `Skill { name, content }` of §3 — the defining
file `src/core/agent.rs` is not in the source tree; fields are exactly the
ones read by `codex.rs`. -/
structure Skill where
  name : String
  content : String
deriving DecidableEq

/-- Modelled from the spec: `McpTool { name, command, args, env, setup_url }`
of §3 — `src/core/agent.rs` is not in the source tree; fields are exactly
the ones read by `codex.rs`. `env` is a string-to-string mapping, kept as an
association list. -/
structure McpTool where
  name : String
  command : String
  args : List String
  env : List (String × String)
  setup_url : Option String
deriving DecidableEq

/-- Modelled from the spec: the `identity` record of §3
(`system_prompt` required, `model`/`icon` optional). -/
structure AgentIdentity where
  system_prompt : String
  model : Option String
  icon : Option String
deriving DecidableEq

/-- Modelled from the spec: `AgentConfig` of §3 — `src/core/agent.rs` is not
in the source tree; fields are exactly the ones read by `codex.rs`. -/
structure AgentConfig where
  name : String
  description : String
  identity : AgentIdentity
  skills : List Skill
  mcp : List McpTool
deriving DecidableEq

/-- Model of `serde_json::Value`. Numbers are kept as `Int` (no claim does
number arithmetic); objects are association lists whose lookup/insert
behaviour mirrors the `BTreeMap` used by serde_json. -/
inductive Json where
  | null
  | bool (b : Bool)
  | num (n : Int)
  | str (s : String)
  | arr (xs : List Json)
  | obj (kvs : List (String × Json))

/-- First-match association lookup (model of `Map::get`). -/
def lookupA {α β : Type} [DecidableEq α] : List (α × β) → α → Option β
  | [], _ => none
  | (k, v) :: rest, a => if k = a then some v else lookupA rest a

/-- Insert-or-replace (model of `Map::insert` / `entry(..).or_insert` plus
assignment): the first binding of the key is replaced in place, a missing
key is appended. -/
def setA {α β : Type} [DecidableEq α] : List (α × β) → α → β → List (α × β)
  | [], k, v => [(k, v)]
  | (k', v') :: rest, k, v =>
    if k' = k then (k, v) :: rest else (k', v') :: setA rest k v

/-- Model of `Value::get(&str)`: key lookup on objects, `None` on every
other variant. -/
def Json.get : Json → String → Option Json
  | Json.obj kvs, k => lookupA kvs k
  | Json.null, _ => none
  | Json.bool _, _ => none
  | Json.num _, _ => none
  | Json.str _, _ => none
  | Json.arr _, _ => none

/-- The `Null`-to-empty-object coercion performed by serde_json's
`index_or_insert` before it inspects the value. -/
def nullToObj : Json → Json
  | Json.null => Json.obj []
  | Json.bool b => Json.bool b
  | Json.num n => Json.num n
  | Json.str s => Json.str s
  | Json.arr xs => Json.arr xs
  | Json.obj kvs => Json.obj kvs

/-- Model of the Rust statement `v[k] = x` on a `serde_json::Value`:
`Null` is first turned into an empty object; indexing any other
non-object value panics (`none`). -/
def jsonSet1 (v : Json) (k : String) (x : Json) : Option Json :=
  match nullToObj v with
  | Json.obj kvs => some (Json.obj (setA kvs k x))
  | _ => none

/-- Model of the Rust statement `v[k1][k2] = x` on a `serde_json::Value`:
both indexing steps convert `Null` to an empty object and panic (`none`)
on any other non-object value; the inner slot defaults to `Null` when the
key `k1` is absent (`entry(k1).or_insert(Null)`). -/
def jsonSet2 (v : Json) (k1 k2 : String) (x : Json) : Option Json :=
  match nullToObj v with
  | Json.obj kvs =>
    match nullToObj ((lookupA kvs k1).getD Json.null) with
    | Json.obj ikvs => some (Json.obj (setA kvs k1 (Json.obj (setA ikvs k2 x))))
    | _ => none
  | _ => none

/-- The JSON object `{ "command": .., "args": .., "env": .. }` built for one
tool (codex.rs lines 123–127). -/
def toolJson (t : McpTool) : Json :=
  Json.obj [("command", Json.str t.command),
            ("args", Json.arr (t.args.map Json.str)),
            ("env", Json.obj (t.env.map (fun p => (p.1, Json.str p.2))))]

/-- The guard at codex.rs lines 117–119:
`if config.get("mcpServers").is_none() { config["mcpServers"] = json!({}); }`. -/
def ensureMcpServers (config : Json) : Option Json :=
  if (config.get "mcpServers").isNone then jsonSet1 config "mcpServers" (Json.obj [])
  else some config

/-- The per-tool loop at codex.rs lines 122–135:
`config["mcpServers"][&tool.name] = tool_config` for each tool, in order.
(The advisory `setup_url` notice printed there is terminal output, not
persisted state, and is not modelled.) -/
def installToolsLoop : Json → List McpTool → Option Json
  | config, [] => some config
  | config, t :: ts =>
    match jsonSet2 config "mcpServers" t.name (toolJson t) with
    | none => none
    | some config' => installToolsLoop config' ts

/-- The registry merge of `install_tools` after the config has been loaded
(codex.rs lines 116–135): ensure the `mcpServers` key, then add each tool.
`none` models a serde_json index panic. -/
def installToolsCore (config : Json) (tools : List McpTool) : Option Json :=
  match ensureMcpServers config with
  | none => none
  | some config' => installToolsLoop config' tools

/-- Left fold of the per-tool inserts over an `mcpServers` entry list; this
is what the loop does to the inner object (proved below). -/
def applyTools (acc : List (String × Json)) (tools : List McpTool) : List (String × Json) :=
  tools.foldl (fun a t => setA a t.name (toolJson t)) acc

/-- The entry list an existing `mcpServers` slot contributes to the merge:
an absent or `null` slot contributes no entries (both become an empty
object), an object slot contributes its entries, and any other value makes
the merge panic (`none`). -/
def innerKvs : Option Json → Option (List (String × Json))
  | none => some []
  | some Json.null => some []
  | some (Json.obj l) => some l
  | some (Json.bool _) => none
  | some (Json.num _) => none
  | some (Json.str _) => none
  | some (Json.arr _) => none

/-- The loaded configs on which the merge completes, with the top-level and
`mcpServers` entry lists they contribute: a `null` config is coerced to an
empty object by the first indexing step, an object config contributes its
entries when its `mcpServers` slot admits entries (`innerKvs`), and every
other config value makes the merge panic (`none`). -/
def mergeKvs : Json → Option (List (String × Json) × List (String × Json))
  | Json.null => some ([], [])
  | Json.obj kvs =>
    match innerKvs (lookupA kvs "mcpServers") with
    | some ikvs => some (kvs, ikvs)
    | none => none
  | Json.bool _ => none
  | Json.num _ => none
  | Json.str _ => none
  | Json.arr _ => none

/-! ## Filesystem model

Paths are component lists; the shallow `FS` state maps paths to file
contents and keeps the set of directories that exist. Operations mirror
`std::fs`: `write` creates-or-truncates, `create_dir_all` succeeds whether
or not the directory exists, `remove_file` / `remove_dir_all` fail (`none`)
when the target is absent. Each path is taken to name at most one kind of
artifact (regular file or directory), as in every state this installer
produces. -/

/-- A filesystem path, as its list of components. -/
abbrev FPath := List String

/-- Contents of one file: raw text, or the `to_string_pretty` serialization
of a JSON value. A `jsonData j` file re-parses to exactly `j`
(serde_json round-trip). -/
inductive FileData where
  | text (s : String)
  | jsonData (j : Json)

/-- The filesystem state: files (path, contents) and existing directories. -/
structure FS where
  files : List (FPath × FileData)
  dirs : List FPath

/-- Model of `Path::exists()` for a regular file. -/
def FS.fileExists (fs : FS) (p : FPath) : Bool :=
  (lookupA fs.files p).isSome

/-- Model of `Path::exists()` for a directory. -/
def FS.dirExists (fs : FS) (p : FPath) : Bool :=
  decide (p ∈ fs.dirs)

/-- Model of `fs::read_to_string` (combined with the existence check that
always guards it in this code): the contents, when the file exists. -/
def FS.readFile (fs : FS) (p : FPath) : Option FileData :=
  lookupA fs.files p

/-- Model of `fs::write`: create or fully overwrite. -/
def FS.write (fs : FS) (p : FPath) (d : FileData) : FS :=
  { fs with files := setA fs.files p d }

/-- Directory insertion with deduplication. -/
def addDir (ds : List FPath) (p : FPath) : List FPath :=
  if p ∈ ds then ds else ds ++ [p]

/-- Model of `fs::create_dir_all`: ensures the directory exists, succeeds
either way. (Intermediate ancestor directories are not tracked; no claim
observes them.) -/
def FS.createDirAll (fs : FS) (p : FPath) : FS :=
  { fs with dirs := addDir fs.dirs p }

/-- Model of `fs::remove_file`: fails (`none`) when the file is absent. -/
def FS.removeFile (fs : FS) (p : FPath) : Option FS :=
  if (lookupA fs.files p).isSome then
    some { fs with files := fs.files.filter (fun e => !decide (e.1 = p)) }
  else none

/-- `isUnder d p` : the path `p` lies at or below the directory `d`
(`d` is an initial segment of `p`). -/
def isUnder : FPath → FPath → Bool
  | [], _ => true
  | _ :: _, [] => false
  | d :: ds, x :: xs => decide (d = x) && isUnder ds xs

/-- Model of `fs::remove_dir_all`: removes the directory and everything
below it; fails (`none`) when the directory is absent. -/
def FS.removeDirAll (fs : FS) (p : FPath) : Option FS :=
  if fs.dirExists p then
    some { files := fs.files.filter (fun e => !isUnder p e.1),
           dirs := fs.dirs.filter (fun q => !isUnder p q) }
  else none

/-! ## The Codex installer

`paths::codex_config_dir()` (an out-of-scope path resolver, per §1/§6 of
the spec) is modelled by a `base` path parameter; JSON text parsing
(`serde_json::from_str`, a library call on raw text) is modelled by a
`parse` function parameter, applied to `text` files, while `jsonData`
files re-parse to their own value. -/

/-- The `CodexInstaller` struct (codex.rs lines 21–24): it stores only the
`global` flag, and — as in the source — none of its methods read it. -/
structure CodexInstaller where
  global : Bool

/-- `get_agents_dir` (codex.rs lines 38–40). -/
def agentsDir (base : FPath) : FPath := base ++ ["agents"]

/-- `get_config_path` (codex.rs lines 43–45). -/
def configPath (base : FPath) : FPath := base ++ ["config.json"]

/-- The per-agent skills directory (codex.rs line 90). -/
def skillsDir (base : FPath) (agent_name : String) : FPath :=
  base ++ ["skills", agent_name]

/-- `generate_agent_markdown` (codex.rs lines 48–67): fixed-order YAML
frontmatter (`name`, `description`, `model`, `icon`) with defaults
`"gpt-4o"` / `"🤖"`, followed by the verbatim system prompt. -/
def generate_agent_markdown (agent : AgentConfig) : String :=
  "---\nname: " ++ agent.name ++
  "\ndescription: " ++ agent.description ++
  "\nmodel: " ++ (agent.identity.model.getD "gpt-4o") ++
  "\nicon: " ++ (agent.identity.icon.getD "🤖") ++
  "\n---\n\n" ++ agent.identity.system_prompt

/-- `install_identity` (codex.rs lines 71–82): create the agents directory,
write `{agent.name}.md`. -/
def CodexInstaller.install_identity (_self : CodexInstaller) (base : FPath)
    (agent : AgentConfig) (fs : FS) : FS :=
  ((fs.createDirAll (agentsDir base)).write
    (agentsDir base ++ [agent.name ++ ".md"])
    (FileData.text (generate_agent_markdown agent)))

/-- `install_skills` (codex.rs lines 84–99): no-op on an empty skill list,
otherwise create the per-agent skills directory and write one file per
skill. -/
def CodexInstaller.install_skills (_self : CodexInstaller) (base : FPath)
    (agent : AgentConfig) (fs : FS) : FS :=
  if agent.skills.isEmpty then fs
  else
    agent.skills.foldl
      (fun f sk => f.write (skillsDir base agent.name ++ [sk.name ++ ".md"])
        (FileData.text sk.content))
      (fs.createDirAll (skillsDir base agent.name))

/-- The config-loading step of `install_tools` (codex.rs lines 109–114):
read the registry file if it exists; a parse failure — and an absent
file — yield the empty object. -/
def loadConfig (parse : String → Option Json) (fs : FS) (cp : FPath) : Json :=
  match fs.readFile cp with
  | some (FileData.text s) => (parse s).getD (Json.obj [])
  | some (FileData.jsonData j) => j
  | none => Json.obj []

/-- `install_tools` (codex.rs lines 101–146): no-op on an empty tool list,
otherwise load the registry, merge the tools, ensure the parent directory
and write the registry back; `none` models the serde_json index panic. -/
def CodexInstaller.install_tools (_self : CodexInstaller) (base : FPath)
    (parse : String → Option Json) (agent : AgentConfig) (fs : FS) : Option FS :=
  if agent.mcp.isEmpty then some fs
  else
    match installToolsCore (loadConfig parse fs (configPath base)) agent.mcp with
    | none => none
    | some config =>
      some (((fs.createDirAll (configPath base).dropLast)).write (configPath base)
        (FileData.jsonData config))

/-- `uninstall` (codex.rs lines 148–162): remove the identity file and the
per-agent skills directory, each only if it exists. -/
def CodexInstaller.uninstall (_self : CodexInstaller) (base : FPath)
    (agent_name : String) (fs : FS) : Option FS :=
  match (if fs.fileExists (agentsDir base ++ [agent_name ++ ".md"]) then
          fs.removeFile (agentsDir base ++ [agent_name ++ ".md"])
         else some fs) with
  | none => none
  | some fs1 =>
    if fs1.dirExists (skillsDir base agent_name) then
      fs1.removeDirAll (skillsDir base agent_name)
    else some fs1

/-- The `Target` enumeration (`mod.rs` lines 19–23). -/
inductive Target where
  | claude
  | cursor
  | codex
deriving DecidableEq

/-! ## Association-list lemmas -/

theorem lookupA_setA_self {α β : Type} [DecidableEq α] (l : List (α × β)) (k : α) (v : β) :
    lookupA (setA l k v) k = some v := by
  induction l with
  | nil => simp [setA, lookupA]
  | cons e rest ih =>
    obtain ⟨k', v'⟩ := e
    by_cases h : k' = k <;> simp [setA, lookupA, h, ih]

theorem lookupA_setA_ne {α β : Type} [DecidableEq α] (l : List (α × β)) (k a : α) (v : β)
    (h : a ≠ k) : lookupA (setA l k v) a = lookupA l a := by
  induction l with
  | nil => simp [setA, lookupA, Ne.symm h]
  | cons e rest ih =>
    obtain ⟨k', v'⟩ := e
    by_cases h1 : k' = k
    · subst h1
      simp [setA, lookupA, Ne.symm h]
    · by_cases h2 : k' = a
      · subst h2
        simp [setA, lookupA, h1, h]
      · simp [setA, lookupA, h1, h2, ih]

theorem setA_setA {α β : Type} [DecidableEq α] (l : List (α × β)) (k : α) (v v' : β) :
    setA (setA l k v) k v' = setA l k v' := by
  induction l with
  | nil => simp [setA]
  | cons e rest ih =>
    obtain ⟨k', w⟩ := e
    by_cases h : k' = k <;> simp [setA, h, ih]

theorem setA_of_lookupA {α β : Type} [DecidableEq α] (l : List (α × β)) (k : α) (v : β)
    (h : lookupA l k = some v) : setA l k v = l := by
  induction l with
  | nil => simp [lookupA] at h
  | cons e rest ih =>
    obtain ⟨k', w⟩ := e
    by_cases h1 : k' = k
    · subst h1
      simp [lookupA] at h
      simp [setA, h]
    · simp [lookupA, h1] at h
      simp [setA, h1, ih h]

/-! ## Lemmas about the registry merge -/

theorem jsonSet2_inner_ok (kvs : List (String × Json)) (k1 k2 : String) (x : Json)
    (ikvs : List (String × Json)) (h : innerKvs (lookupA kvs k1) = some ikvs) :
    jsonSet2 (Json.obj kvs) k1 k2 x =
      some (Json.obj (setA kvs k1 (Json.obj (setA ikvs k2 x)))) := by
  cases hv : lookupA kvs k1 with
  | none =>
    rw [hv] at h
    simp [innerKvs] at h
    subst h
    simp [jsonSet2, nullToObj, hv]
  | some j =>
    rw [hv] at h
    cases j with
    | null =>
      simp [innerKvs] at h
      subst h
      simp [jsonSet2, nullToObj, hv]
    | obj l =>
      simp [innerKvs] at h
      subst h
      simp [jsonSet2, nullToObj, hv]
    | bool b => simp [innerKvs] at h
    | num n => simp [innerKvs] at h
    | str s => simp [innerKvs] at h
    | arr xs => simp [innerKvs] at h

theorem applyTools_nil (acc : List (String × Json)) : applyTools acc [] = acc := rfl

theorem applyTools_cons (acc : List (String × Json)) (t : McpTool) (ts : List McpTool) :
    applyTools acc (t :: ts) = applyTools (setA acc t.name (toolJson t)) ts := rfl

theorem installToolsLoop_nf (tools : List McpTool) :
    ∀ (kvs ikvs : List (String × Json)),
      installToolsLoop (Json.obj (setA kvs "mcpServers" (Json.obj ikvs))) tools =
        some (Json.obj (setA kvs "mcpServers" (Json.obj (applyTools ikvs tools)))) := by
  induction tools with
  | nil => intro kvs ikvs; rfl
  | cons t ts ih =>
    intro kvs ikvs
    have hlk : innerKvs (lookupA (setA kvs "mcpServers" (Json.obj ikvs)) "mcpServers") =
        some ikvs := by
      rw [lookupA_setA_self]
      rfl
    show (match jsonSet2 (Json.obj (setA kvs "mcpServers" (Json.obj ikvs)))
            "mcpServers" t.name (toolJson t) with
          | none => none
          | some config' => installToolsLoop config' ts) = _
    rw [jsonSet2_inner_ok _ _ _ _ _ hlk]
    show installToolsLoop
        (Json.obj (setA (setA kvs "mcpServers" (Json.obj ikvs)) "mcpServers"
          (Json.obj (setA ikvs t.name (toolJson t))))) ts = _
    rw [setA_setA, ih, applyTools_cons]

theorem installToolsCore_eq (kvs ikvs : List (String × Json)) (tools : List McpTool)
    (h : innerKvs (lookupA kvs "mcpServers") = some ikvs) (ht : tools ≠ []) :
    installToolsCore (Json.obj kvs) tools =
      some (Json.obj (setA kvs "mcpServers" (Json.obj (applyTools ikvs tools)))) := by
  cases hv : lookupA kvs "mcpServers" with
  | none =>
    rw [hv] at h
    simp [innerKvs] at h
    subst h
    have he : ensureMcpServers (Json.obj kvs) =
        some (Json.obj (setA kvs "mcpServers" (Json.obj []))) := by
      simp [ensureMcpServers, Json.get, hv, jsonSet1, nullToObj]
    simp only [installToolsCore, he]
    exact installToolsLoop_nf tools kvs []
  | some j =>
    have he : ensureMcpServers (Json.obj kvs) = some (Json.obj kvs) := by
      simp [ensureMcpServers, Json.get, hv]
    obtain ⟨t, ts, hts⟩ : ∃ t ts, tools = t :: ts := by
      cases tools with
      | nil => exact absurd rfl ht
      | cons t ts => exact ⟨t, ts, rfl⟩
    subst hts
    rw [hv] at h
    simp only [installToolsCore, he]
    show (match jsonSet2 (Json.obj kvs) "mcpServers" t.name (toolJson t) with
          | none => none
          | some config' => installToolsLoop config' ts) = _
    rw [jsonSet2_inner_ok _ _ _ _ _ (by rw [hv]; exact h)]
    show installToolsLoop
        (Json.obj (setA kvs "mcpServers" (Json.obj (setA ikvs t.name (toolJson t))))) ts = _
    rw [installToolsLoop_nf ts kvs (setA ikvs t.name (toolJson t)), applyTools_cons]

theorem lookupA_applyTools_not_mem (tools : List McpTool) :
    ∀ (acc : List (String × Json)) (k : String), k ∉ tools.map McpTool.name →
      lookupA (applyTools acc tools) k = lookupA acc k := by
  induction tools with
  | nil => intro acc k _; rfl
  | cons t ts ih =>
    intro acc k hk
    simp only [List.map_cons, List.mem_cons] at hk
    push_neg at hk
    rw [applyTools_cons, ih _ _ hk.2, lookupA_setA_ne _ _ _ _ hk.1]

theorem isSome_lookupA_setA {α β : Type} [DecidableEq α] (l : List (α × β)) (k k' : α) (v : β)
    (h : (lookupA l k).isSome = true) : (lookupA (setA l k' v) k).isSome = true := by
  by_cases hk : k = k'
  · subst hk; rw [lookupA_setA_self]; rfl
  · rw [lookupA_setA_ne _ _ _ _ hk]; exact h

theorem isSome_lookupA_applyTools (tools : List McpTool) :
    ∀ (acc : List (String × Json)) (k : String), (lookupA acc k).isSome = true →
      (lookupA (applyTools acc tools) k).isSome = true := by
  induction tools with
  | nil => intro acc k h; exact h
  | cons t ts ih =>
    intro acc k h
    rw [applyTools_cons]
    exact ih _ _ (isSome_lookupA_setA _ _ _ _ h)

theorem lookupA_applyTools_mem (tools : List McpTool) :
    ∀ (acc : List (String × Json)) (t : McpTool), t ∈ tools →
      (lookupA (applyTools acc tools) t.name).isSome = true := by
  induction tools with
  | nil => intro acc t h; simp at h
  | cons u ts ih =>
    intro acc t h
    rw [applyTools_cons]
    rcases List.mem_cons.mp h with h1 | h2
    · subst h1
      exact isSome_lookupA_applyTools ts _ _ (by rw [lookupA_setA_self]; rfl)
    · exact ih _ _ h2

theorem lookupA_applyTools_last (ts₁ ts₂ : List McpTool) (t : McpTool)
    (acc : List (String × Json)) (h : t.name ∉ ts₂.map McpTool.name) :
    lookupA (applyTools acc (ts₁ ++ t :: ts₂)) t.name = some (toolJson t) := by
  have hsplit : applyTools acc (ts₁ ++ t :: ts₂) =
      applyTools (setA (applyTools acc ts₁) t.name (toolJson t)) ts₂ := by
    simp [applyTools, List.foldl_append]
  rw [hsplit, lookupA_applyTools_not_mem _ _ _ h, lookupA_setA_self]

/-! ## Filesystem lemmas -/

theorem lookupA_filter_not_self {β : Type} (l : List (FPath × β)) (p : FPath) :
    lookupA (l.filter (fun e => !decide (e.1 = p))) p = none := by
  induction l with
  | nil => rfl
  | cons e rest ih =>
    obtain ⟨q, d⟩ := e
    by_cases h : q = p
    · simp [List.filter, h, ih]
    · simp [List.filter, h, lookupA, ih]

theorem lookupA_filter_none {α β : Type} [DecidableEq α] (f : α × β → Bool)
    (l : List (α × β)) (p : α) (h : lookupA l p = none) :
    lookupA (l.filter f) p = none := by
  induction l with
  | nil => rfl
  | cons e rest ih =>
    obtain ⟨q, d⟩ := e
    by_cases hq : q = p
    · subst hq
      simp [lookupA] at h
    · rw [lookupA, if_neg hq] at h
      cases hf : f (q, d)
      · simpa [List.filter, hf] using ih h
      · simpa [List.filter, hf, lookupA, hq] using ih h

theorem lookupA_filter_keep {α β : Type} [DecidableEq α] (f : α → Bool)
    (l : List (α × β)) (p : α) (h : f p = true) :
    lookupA (l.filter (fun e => f e.1)) p = lookupA l p := by
  induction l with
  | nil => rfl
  | cons e rest ih =>
    obtain ⟨q, d⟩ := e
    by_cases hq : q = p
    · subst hq
      simp [List.filter, h, lookupA, ih]
    · cases hf : f q
      · simpa [List.filter, hf, lookupA, hq] using ih
      · simpa [List.filter, hf, lookupA, hq] using ih

theorem isUnder_refl (p : FPath) : isUnder p p = true := by
  induction p with
  | nil => rfl
  | cons x xs ih => simp [isUnder, ih]

theorem isUnder_length (d p : FPath) (h : isUnder d p = true) : d.length ≤ p.length := by
  induction d generalizing p with
  | nil => simp
  | cons x xs ih =>
    cases p with
    | nil => simp [isUnder] at h
    | cons y ys =>
      simp only [isUnder, Bool.and_eq_true, decide_eq_true_eq] at h
      simpa using ih ys h.2

theorem addDir_addDir (ds : List FPath) (p : FPath) : addDir (addDir ds p) p = addDir ds p := by
  by_cases h : p ∈ ds
  · simp [addDir, h]
  · simp [addDir, h]

theorem configPath_ne_identityFile (base : FPath) (n s : String) :
    configPath base ≠ agentsDir base ++ [n ++ s] := by
  intro h
  have hl := congrArg List.length h
  simp [configPath, agentsDir] at hl

theorem isUnder_skillsDir_configPath (base : FPath) (n : String) :
    isUnder (skillsDir base n) (configPath base) = false := by
  cases h : isUnder (skillsDir base n) (configPath base)
  · rfl
  · have hl := isUnder_length _ _ h
    simp [skillsDir, configPath] at hl

/-! ## A closed form for `install_tools` on a mergeable registry -/

theorem install_tools_eq (inst : CodexInstaller) (base : FPath)
    (parse : String → Option Json) (agent : AgentConfig) (fs : FS)
    (kvs ikvs : List (String × Json))
    (hk : loadConfig parse fs (configPath base) = Json.obj kvs)
    (hi : innerKvs (lookupA kvs "mcpServers") = some ikvs)
    (hm : agent.mcp ≠ []) :
    CodexInstaller.install_tools inst base parse agent fs =
      some ((fs.createDirAll (configPath base).dropLast).write (configPath base)
        (FileData.jsonData
          (Json.obj (setA kvs "mcpServers" (Json.obj (applyTools ikvs agent.mcp)))))) := by
  have hne : agent.mcp.isEmpty = false := by
    cases hmc : agent.mcp with
    | nil => exact absurd hmc hm
    | cons t ts => rfl
  rw [CodexInstaller.install_tools, if_neg (by simp [hne]), hk,
    installToolsCore_eq kvs ikvs agent.mcp hi hm]

theorem installToolsCore_null_eq (tools : List McpTool) :
    installToolsCore Json.null tools =
      some (Json.obj (setA [] "mcpServers" (Json.obj (applyTools [] tools)))) := by
  have he : ensureMcpServers Json.null =
      some (Json.obj (setA [] "mcpServers" (Json.obj []))) := rfl
  simp only [installToolsCore, he]
  exact installToolsLoop_nf tools [] []

theorem install_tools_eq_null (inst : CodexInstaller) (base : FPath)
    (parse : String → Option Json) (agent : AgentConfig) (fs : FS)
    (hk : loadConfig parse fs (configPath base) = Json.null)
    (hm : agent.mcp ≠ []) :
    CodexInstaller.install_tools inst base parse agent fs =
      some ((fs.createDirAll (configPath base).dropLast).write (configPath base)
        (FileData.jsonData
          (Json.obj (setA [] "mcpServers" (Json.obj (applyTools [] agent.mcp)))))) := by
  have hne : agent.mcp.isEmpty = false := by
    cases hmc : agent.mcp with
    | nil => exact absurd hmc hm
    | cons t ts => rfl
  rw [CodexInstaller.install_tools, if_neg (by simp [hne]), hk, installToolsCore_null_eq]

theorem readFile_write_self (fs : FS) (p : FPath) (d : FileData) :
    (fs.write p d).readFile p = some d := by
  simp [FS.write, FS.readFile, lookupA_setA_self]

theorem isSome_false_eq_none {α : Type} {o : Option α} (h : o.isSome = false) : o = none := by
  cases o with
  | none => rfl
  | some x => simp at h

/-! ## A specification of `uninstall`: it always succeeds, removes both
per-agent artifacts, leaves the registry file untouched, and is a no-op
the second time. -/

theorem uninstall_spec (inst : CodexInstaller) (base : FPath) (n : String) (fs : FS) :
    ∃ fs₂, CodexInstaller.uninstall inst base n fs = some fs₂ ∧
      fs₂.fileExists (agentsDir base ++ [n ++ ".md"]) = false ∧
      fs₂.dirExists (skillsDir base n) = false ∧
      fs₂.readFile (configPath base) = fs.readFile (configPath base) ∧
      CodexInstaller.uninstall inst base n fs₂ = some fs₂ := by
  obtain ⟨fs1, hfs1, hf1, hr1⟩ :
      ∃ fs1, (if fs.fileExists (agentsDir base ++ [n ++ ".md"]) then
                fs.removeFile (agentsDir base ++ [n ++ ".md"]) else some fs) = some fs1 ∧
        fs1.fileExists (agentsDir base ++ [n ++ ".md"]) = false ∧
        fs1.readFile (configPath base) = fs.readFile (configPath base) := by
    by_cases h1 : fs.fileExists (agentsDir base ++ [n ++ ".md"]) = true
    · refine ⟨{ fs with
          files := fs.files.filter (fun e => !decide (e.1 = agentsDir base ++ [n ++ ".md"])) },
        ?_, ?_, ?_⟩
      · rw [if_pos h1]
        simp only [FS.fileExists] at h1
        simp [FS.removeFile, h1]
      · simp [FS.fileExists, lookupA_filter_not_self]
      · exact lookupA_filter_keep (fun a => !decide (a = agentsDir base ++ [n ++ ".md"])) _ _
          (by simp [configPath_ne_identityFile base n ".md"])
    · refine ⟨fs, ?_, ?_, rfl⟩
      · rw [if_neg h1]
      · simpa using h1
  obtain ⟨fs₂, hfs2, hf2, hd2, hr2⟩ :
      ∃ fs₂, (if fs1.dirExists (skillsDir base n) then
                fs1.removeDirAll (skillsDir base n) else some fs1) = some fs₂ ∧
        fs₂.fileExists (agentsDir base ++ [n ++ ".md"]) = false ∧
        fs₂.dirExists (skillsDir base n) = false ∧
        fs₂.readFile (configPath base) = fs1.readFile (configPath base) := by
    by_cases h2 : fs1.dirExists (skillsDir base n) = true
    · refine ⟨{ files := fs1.files.filter (fun e => !isUnder (skillsDir base n) e.1),
                dirs := fs1.dirs.filter (fun q => !isUnder (skillsDir base n) q) }, ?_, ?_, ?_, ?_⟩
      · rw [if_pos h2]
        simp [FS.removeDirAll, h2]
      · simp only [FS.fileExists] at hf1 ⊢
        rw [lookupA_filter_none _ _ _ (isSome_false_eq_none hf1)]
        rfl
      · simp [FS.dirExists, List.mem_filter, isUnder_refl]
      · exact lookupA_filter_keep (fun a => !isUnder (skillsDir base n) a) _ _
          (by simp [isUnder_skillsDir_configPath base n])
    · refine ⟨fs1, ?_, hf1, ?_, rfl⟩
      · rw [if_neg h2]
      · simpa using h2
  refine ⟨fs₂, ?_, hf2, hd2, hr2.trans hr1, ?_⟩
  · simp only [CodexInstaller.uninstall, hfs1]
    exact hfs2
  · simp [CodexInstaller.uninstall, hf2, hd2]

/-- Claim C5: `install_identity` is idempotent — repeating it with the same
`AgentConfig` fully overwrites the identity file with byte-identical
content, and the filesystem state after two calls equals the state after
one. -/
theorem install_identity_idempotent (inst : CodexInstaller) (base : FPath)
    (agent : AgentConfig) (fs : FS) :
    CodexInstaller.install_identity inst base agent
        (CodexInstaller.install_identity inst base agent fs) =
      CodexInstaller.install_identity inst base agent fs := by
  simp [CodexInstaller.install_identity, FS.write, FS.createDirAll, setA_setA, addDir_addDir]

/-- Claim C6: with `model = none` and `icon = none`, `install_identity`
writes to `{agents dir}/{agent.name}.md` a document whose metadata fields
appear in the fixed order `name`, `description`, `model`, `icon`, with the
default model `"gpt-4o"` and default icon `"🤖"`, followed by the verbatim
system prompt. -/
theorem install_identity_defaults (inst : CodexInstaller) (base : FPath)
    (agent : AgentConfig) (fs : FS)
    (hm : agent.identity.model = none) (hi : agent.identity.icon = none) :
    (CodexInstaller.install_identity inst base agent fs).readFile
        (agentsDir base ++ [agent.name ++ ".md"]) =
      some (FileData.text ("---\nname: " ++ agent.name ++
        "\ndescription: " ++ agent.description ++
        "\nmodel: " ++ "gpt-4o" ++
        "\nicon: " ++ "🤖" ++
        "\n---\n\n" ++ agent.identity.system_prompt)) := by
  simp [CodexInstaller.install_identity, readFile_write_self,
    generate_agent_markdown, hm, hi]

theorem install_identity_defaults_witness :
    (AgentConfig.mk "helper" "a helper" (AgentIdentity.mk "Be helpful." none none)
        [] []).identity.model = none ∧
    (AgentConfig.mk "helper" "a helper" (AgentIdentity.mk "Be helpful." none none)
        [] []).identity.icon = none ∧
    (CodexInstaller.install_identity ⟨true⟩ ["home", ".codex"]
        (AgentConfig.mk "helper" "a helper" (AgentIdentity.mk "Be helpful." none none) [] [])
        ⟨[], []⟩).readFile
        (agentsDir ["home", ".codex"] ++ ["helper" ++ ".md"]) =
      some (FileData.text ("---\nname: " ++ "helper" ++
        "\ndescription: " ++ "a helper" ++
        "\nmodel: " ++ "gpt-4o" ++
        "\nicon: " ++ "🤖" ++
        "\n---\n\n" ++ "Be helpful.")) :=
  ⟨rfl, rfl,
    install_identity_defaults ⟨true⟩ ["home", ".codex"]
      (AgentConfig.mk "helper" "a helper" (AgentIdentity.mk "Be helpful." none none) [] [])
      ⟨[], []⟩ rfl rfl⟩

/-- Claim C7: with an empty skill sequence `install_skills` succeeds and
returns the filesystem unchanged, and with an empty tool sequence
`install_tools` succeeds and returns the filesystem unchanged (the
registry file is neither read nor written and no directory is created). -/
theorem empty_sequences_noop (inst : CodexInstaller) (base : FPath)
    (parse : String → Option Json) (agent : AgentConfig) (fs : FS) :
    (agent.skills = [] → CodexInstaller.install_skills inst base agent fs = fs) ∧
    (agent.mcp = [] → CodexInstaller.install_tools inst base parse agent fs = some fs) := by
  constructor
  · intro h
    simp [CodexInstaller.install_skills, h]
  · intro h
    simp [CodexInstaller.install_tools, h]

theorem empty_sequences_noop_witness :
    (AgentConfig.mk "lone" "no payload" (AgentIdentity.mk "x" none none) [] []).skills = [] ∧
    (AgentConfig.mk "lone" "no payload" (AgentIdentity.mk "x" none none) [] []).mcp = [] ∧
    CodexInstaller.install_skills ⟨false⟩ ["h"]
        (AgentConfig.mk "lone" "no payload" (AgentIdentity.mk "x" none none) [] [])
        ⟨[(["h", "config.json"], FileData.text "keep")], [["h"]]⟩ =
      ⟨[(["h", "config.json"], FileData.text "keep")], [["h"]]⟩ ∧
    CodexInstaller.install_tools ⟨false⟩ ["h"] (fun _ => none)
        (AgentConfig.mk "lone" "no payload" (AgentIdentity.mk "x" none none) [] [])
        ⟨[(["h", "config.json"], FileData.text "keep")], [["h"]]⟩ =
      some ⟨[(["h", "config.json"], FileData.text "keep")], [["h"]]⟩ :=
  ⟨rfl, rfl,
    (empty_sequences_noop ⟨false⟩ ["h"] (fun _ => none)
      (AgentConfig.mk "lone" "no payload" (AgentIdentity.mk "x" none none) [] [])
      ⟨[(["h", "config.json"], FileData.text "keep")], [["h"]]⟩).1 rfl,
    (empty_sequences_noop ⟨false⟩ ["h"] (fun _ => none)
      (AgentConfig.mk "lone" "no payload" (AgentIdentity.mk "x" none none) [] [])
      ⟨[(["h", "config.json"], FileData.text "keep")], [["h"]]⟩).2 rfl⟩

/-- Claim C8: `uninstall` always succeeds — in particular for a name with
no existing artifacts — and after the first call neither the identity file
nor the per-agent skills directory remains; a second call also succeeds
and changes nothing. -/
theorem uninstall_idempotent (inst : CodexInstaller) (base : FPath)
    (agent_name : String) (fs : FS) :
    ∃ fs₂, CodexInstaller.uninstall inst base agent_name fs = some fs₂ ∧
      fs₂.fileExists (agentsDir base ++ [agent_name ++ ".md"]) = false ∧
      fs₂.dirExists (skillsDir base agent_name) = false ∧
      CodexInstaller.uninstall inst base agent_name fs₂ = some fs₂ := by
  obtain ⟨fs₂, h1, h2, h3, _, h5⟩ := uninstall_spec inst base agent_name fs
  exact ⟨fs₂, h1, h2, h3, h5⟩

/-- Claim C9: `uninstall` leaves the shared tool registry file (its
existence and full contents, hence every `mcpServers` entry) unchanged,
for every agent name and every filesystem state. -/
theorem uninstall_preserves_registry (inst : CodexInstaller) (base : FPath)
    (agent_name : String) (fs : FS) :
    ∃ fs₂, CodexInstaller.uninstall inst base agent_name fs = some fs₂ ∧
      fs₂.readFile (configPath base) = fs.readFile (configPath base) := by
  obtain ⟨fs₂, h1, _, _, h4, _⟩ := uninstall_spec inst base agent_name fs
  exact ⟨fs₂, h1, h4⟩

/-- Claim C1, as literally stated, fails: install_tools does not add the
tool entry for every pre-existing registry JSON object — on the registry
object `{"mcpServers": 1}` the merge panics (serde_json's string `IndexMut`
on a number), so nothing is written and no `baz` entry is added. -/
theorem install_tools_registry_frame_cex :
    CodexInstaller.install_tools ⟨true⟩ ["home"]
        (fun _ => some (Json.obj [("mcpServers", Json.num 1)]))
        (AgentConfig.mk "a" "d" (AgentIdentity.mk "p" none none) []
          [McpTool.mk "baz" "run-baz" [] [] none])
        (FS.mk [(["home", "config.json"], FileData.text "registry")] []) = none := rfl

/-- Claim C1 (amended): for every pre-existing registry JSON object whose
`mcpServers` key, if present, holds null or an object, and every agent
with a non-empty tool sequence, `install_tools` succeeds and leaves every
top-level key other than `mcpServers` unchanged, leaves every `mcpServers`
entry whose key is not a tool name unchanged, and adds/replaces an entry
for each of the agent's tools. -/
theorem install_tools_registry_frame (inst : CodexInstaller) (base : FPath)
    (parse : String → Option Json) (agent : AgentConfig) (fs : FS)
    (kvs ikvs : List (String × Json))
    (hk : loadConfig parse fs (configPath base) = Json.obj kvs)
    (hi : innerKvs (lookupA kvs "mcpServers") = some ikvs)
    (hm : agent.mcp ≠ []) :
    ∃ fs' out, CodexInstaller.install_tools inst base parse agent fs = some fs' ∧
      fs'.readFile (configPath base) = some (FileData.jsonData (Json.obj out)) ∧
      (∀ k, k ≠ "mcpServers" → lookupA out k = lookupA kvs k) ∧
      ∃ inner, lookupA out "mcpServers" = some (Json.obj inner) ∧
        (∀ k, k ∉ agent.mcp.map McpTool.name → lookupA inner k = lookupA ikvs k) ∧
        (∀ t ∈ agent.mcp, (lookupA inner t.name).isSome = true) := by
  refine ⟨_, setA kvs "mcpServers" (Json.obj (applyTools ikvs agent.mcp)),
    install_tools_eq inst base parse agent fs kvs ikvs hk hi hm,
    readFile_write_self _ _ _, ?_, ?_⟩
  · intro k hk'
    exact lookupA_setA_ne _ _ _ _ hk'
  · exact ⟨applyTools ikvs agent.mcp, lookupA_setA_self _ _ _,
      fun k hk' => lookupA_applyTools_not_mem _ _ _ hk',
      fun t ht => lookupA_applyTools_mem _ _ _ ht⟩

theorem install_tools_registry_frame_witness :
    loadConfig
        (fun _ => some (Json.obj [("foo", Json.num 1),
          ("mcpServers", Json.obj [("bar", Json.str "old")])]))
        (FS.mk [(["h", "config.json"], FileData.text "cfg")] []) (configPath ["h"]) =
      Json.obj [("foo", Json.num 1), ("mcpServers", Json.obj [("bar", Json.str "old")])] ∧
    innerKvs (lookupA [("foo", Json.num 1),
        ("mcpServers", Json.obj [("bar", Json.str "old")])] "mcpServers") =
      some [("bar", Json.str "old")] ∧
    (AgentConfig.mk "a" "d" (AgentIdentity.mk "p" none none) []
        [McpTool.mk "baz" "run" [] [] none]).mcp ≠ [] ∧
    (∃ fs' out, CodexInstaller.install_tools ⟨true⟩ ["h"]
        (fun _ => some (Json.obj [("foo", Json.num 1),
          ("mcpServers", Json.obj [("bar", Json.str "old")])]))
        (AgentConfig.mk "a" "d" (AgentIdentity.mk "p" none none) []
          [McpTool.mk "baz" "run" [] [] none])
        (FS.mk [(["h", "config.json"], FileData.text "cfg")] []) = some fs' ∧
      fs'.readFile (configPath ["h"]) = some (FileData.jsonData (Json.obj out)) ∧
      (∀ k, k ≠ "mcpServers" →
        lookupA out k = lookupA [("foo", Json.num 1),
          ("mcpServers", Json.obj [("bar", Json.str "old")])] k) ∧
      ∃ inner, lookupA out "mcpServers" = some (Json.obj inner) ∧
        (∀ k, k ∉ (AgentConfig.mk "a" "d" (AgentIdentity.mk "p" none none) []
            [McpTool.mk "baz" "run" [] [] none]).mcp.map McpTool.name →
          lookupA inner k = lookupA [("bar", Json.str "old")] k) ∧
        (∀ t ∈ (AgentConfig.mk "a" "d" (AgentIdentity.mk "p" none none) []
            [McpTool.mk "baz" "run" [] [] none]).mcp,
          (lookupA inner t.name).isSome = true)) :=
  ⟨rfl, rfl, by simp,
    install_tools_registry_frame ⟨true⟩ ["h"]
      (fun _ => some (Json.obj [("foo", Json.num 1),
        ("mcpServers", Json.obj [("bar", Json.str "old")])]))
      (AgentConfig.mk "a" "d" (AgentIdentity.mk "p" none none) []
        [McpTool.mk "baz" "run" [] [] none])
      (FS.mk [(["h", "config.json"], FileData.text "cfg")] [])
      [("foo", Json.num 1), ("mcpServers", Json.obj [("bar", Json.str "old")])]
      [("bar", Json.str "old")] rfl rfl (by simp)⟩

/-- Claim C2: when the pre-existing registry file content fails to parse,
`install_tools` on a non-empty tool sequence succeeds, treats the content
as an empty object, and writes a registry containing exactly a
`mcpServers` object holding the agent's tools. -/
theorem install_tools_corrupt_registry (inst : CodexInstaller) (base : FPath)
    (parse : String → Option Json) (agent : AgentConfig) (fs : FS) (content : String)
    (h1 : fs.readFile (configPath base) = some (FileData.text content))
    (h2 : parse content = none)
    (h3 : agent.mcp ≠ []) :
    ∃ fs', CodexInstaller.install_tools inst base parse agent fs = some fs' ∧
      fs'.readFile (configPath base) =
        some (FileData.jsonData
          (Json.obj [("mcpServers", Json.obj (applyTools [] agent.mcp))])) := by
  have hk : loadConfig parse fs (configPath base) = Json.obj [] := by
    simp [loadConfig, h1, h2]
  exact ⟨_, install_tools_eq inst base parse agent fs [] [] hk rfl h3,
    readFile_write_self _ _ _⟩

theorem install_tools_corrupt_registry_witness :
    (FS.mk [(["h", "config.json"], FileData.text "corrupt")] []).readFile (configPath ["h"]) =
      some (FileData.text "corrupt") ∧
    ((fun _ => none) : String → Option Json) "corrupt" = none ∧
    (AgentConfig.mk "a" "d" (AgentIdentity.mk "p" none none) []
        [McpTool.mk "srv" "cmd" ["x"] [("K", "V")] none]).mcp ≠ [] ∧
    (∃ fs', CodexInstaller.install_tools ⟨true⟩ ["h"] (fun _ => none)
        (AgentConfig.mk "a" "d" (AgentIdentity.mk "p" none none) []
          [McpTool.mk "srv" "cmd" ["x"] [("K", "V")] none])
        (FS.mk [(["h", "config.json"], FileData.text "corrupt")] []) = some fs' ∧
      fs'.readFile (configPath ["h"]) =
        some (FileData.jsonData (Json.obj [("mcpServers",
          Json.obj (applyTools []
            [McpTool.mk "srv" "cmd" ["x"] [("K", "V")] none]))]))) :=
  ⟨rfl, rfl, by simp,
    install_tools_corrupt_registry ⟨true⟩ ["h"] (fun _ => none)
      (AgentConfig.mk "a" "d" (AgentIdentity.mk "p" none none) []
        [McpTool.mk "srv" "cmd" ["x"] [("K", "V")] none])
      (FS.mk [(["h", "config.json"], FileData.text "corrupt")] []) "corrupt"
      rfl rfl (by simp)⟩

/-- Claim C3, as literally stated, fails: `install_tools` does not complete
for every pre-existing registry file content — on a file that parses to
`{"mcpServers": "oops"}` the merge panics (serde_json's string `IndexMut`
on a string value). -/
theorem install_tools_mcpServers_object_cex :
    CodexInstaller.install_tools ⟨false⟩ ["root"]
        (fun _ => some (Json.obj [("mcpServers", Json.str "oops")]))
        (AgentConfig.mk "b" "d" (AgentIdentity.mk "p" none none) []
          [McpTool.mk "tool1" "cmd" [] [] none])
        (FS.mk [(["root", "config.json"], FileData.text "was here")] []) = none := rfl

/-- Claim C3 (amended): for every pre-existing registry file content that
is invalid JSON, or parses to `null`, or parses to a JSON object whose
`mcpServers` key is absent, null, or an object, `install_tools` on an
agent with a non-empty tool sequence completes without panicking and the
resulting registry's `mcpServers` key maps to a JSON object (for other
parsed contents the operation can panic — see the counterexample, where
`mcpServers` holds a string). The hypothesis `mergeKvs … = some (kvs, ikvs)`
is exactly that family: a `null` config is coerced to an empty object by
the first indexing step, so it merges like the empty object. -/
theorem install_tools_mcpServers_object (inst : CodexInstaller) (base : FPath)
    (parse : String → Option Json) (agent : AgentConfig) (fs : FS)
    (kvs ikvs : List (String × Json))
    (hk : mergeKvs (loadConfig parse fs (configPath base)) = some (kvs, ikvs))
    (hm : agent.mcp ≠ []) :
    ∃ fs' out, CodexInstaller.install_tools inst base parse agent fs = some fs' ∧
      fs'.readFile (configPath base) = some (FileData.jsonData (Json.obj out)) ∧
      ∃ inner, lookupA out "mcpServers" = some (Json.obj inner) := by
  cases hj : loadConfig parse fs (configPath base) with
  | null =>
    exact ⟨_, _, install_tools_eq_null inst base parse agent fs hj hm,
      readFile_write_self _ _ _, applyTools [] agent.mcp, lookupA_setA_self _ _ _⟩
  | bool b => rw [hj] at hk; simp [mergeKvs] at hk
  | num n => rw [hj] at hk; simp [mergeKvs] at hk
  | str s => rw [hj] at hk; simp [mergeKvs] at hk
  | arr xs => rw [hj] at hk; simp [mergeKvs] at hk
  | obj kvs' =>
    rw [hj] at hk
    cases hin : innerKvs (lookupA kvs' "mcpServers") with
    | none => simp [mergeKvs, hin] at hk
    | some l =>
      exact ⟨_, _, install_tools_eq inst base parse agent fs kvs' l hj hin hm,
        readFile_write_self _ _ _, applyTools l agent.mcp, lookupA_setA_self _ _ _⟩

theorem install_tools_mcpServers_object_witness :
    mergeKvs (loadConfig (fun _ => some Json.null)
        (FS.mk [(["r", "config.json"], FileData.text "null")] []) (configPath ["r"])) =
      some ([], []) ∧
    (AgentConfig.mk "c" "d" (AgentIdentity.mk "p" none none) []
        [McpTool.mk "t" "c" [] [] none]).mcp ≠ [] ∧
    (∃ fs' out, CodexInstaller.install_tools ⟨false⟩ ["r"] (fun _ => some Json.null)
        (AgentConfig.mk "c" "d" (AgentIdentity.mk "p" none none) []
          [McpTool.mk "t" "c" [] [] none])
        (FS.mk [(["r", "config.json"], FileData.text "null")] []) = some fs' ∧
      fs'.readFile (configPath ["r"]) = some (FileData.jsonData (Json.obj out)) ∧
      ∃ inner, lookupA out "mcpServers" = some (Json.obj inner)) :=
  ⟨rfl, by simp,
    install_tools_mcpServers_object ⟨false⟩ ["r"] (fun _ => some Json.null)
      (AgentConfig.mk "c" "d" (AgentIdentity.mk "p" none none) []
        [McpTool.mk "t" "c" [] [] none])
      (FS.mk [(["r", "config.json"], FileData.text "null")] []) [] [] rfl (by simp)⟩

/-- Claim C4: `install_tools` stores under `mcpServers[tool.name]` exactly
the object `{command, args, env}` built from the tool, fully replacing any
prior value under that key: for a tool with no later same-named tool in
the sequence, the final entry is exactly `toolJson t`, whatever was there
before. -/
theorem install_tools_overwrite (inst : CodexInstaller) (base : FPath)
    (parse : String → Option Json) (agent : AgentConfig) (fs : FS)
    (kvs ikvs : List (String × Json)) (ts₁ ts₂ : List McpTool) (t : McpTool)
    (hk : loadConfig parse fs (configPath base) = Json.obj kvs)
    (hi : innerKvs (lookupA kvs "mcpServers") = some ikvs)
    (hsplit : agent.mcp = ts₁ ++ t :: ts₂)
    (hlast : t.name ∉ ts₂.map McpTool.name) :
    ∃ fs' out inner, CodexInstaller.install_tools inst base parse agent fs = some fs' ∧
      fs'.readFile (configPath base) = some (FileData.jsonData (Json.obj out)) ∧
      lookupA out "mcpServers" = some (Json.obj inner) ∧
      lookupA inner t.name = some (toolJson t) := by
  have hm : agent.mcp ≠ [] := by rw [hsplit]; simp
  refine ⟨_, _, applyTools ikvs agent.mcp,
    install_tools_eq inst base parse agent fs kvs ikvs hk hi hm,
    readFile_write_self _ _ _, lookupA_setA_self _ _ _, ?_⟩
  rw [hsplit]
  exact lookupA_applyTools_last ts₁ ts₂ t ikvs hlast

theorem install_tools_overwrite_witness :
    CodexInstaller.install_tools ⟨true⟩ ["h"] (fun _ => none)
        (AgentConfig.mk "a" "d" (AgentIdentity.mk "p" none none) []
          [McpTool.mk "baz" "cmd-one" [] [] none]) (FS.mk [] []) =
      some (FS.mk [(["h", "config.json"],
        FileData.jsonData (Json.obj [("mcpServers",
          Json.obj [("baz", toolJson (McpTool.mk "baz" "cmd-one" [] [] none))])]))]
        [["h"]]) ∧
    loadConfig (fun _ => none)
        (FS.mk [(["h", "config.json"],
          FileData.jsonData (Json.obj [("mcpServers",
            Json.obj [("baz", toolJson (McpTool.mk "baz" "cmd-one" [] [] none))])]))]
          [["h"]]) (configPath ["h"]) =
      Json.obj [("mcpServers",
        Json.obj [("baz", toolJson (McpTool.mk "baz" "cmd-one" [] [] none))])] ∧
    innerKvs (lookupA [("mcpServers",
        Json.obj [("baz", toolJson (McpTool.mk "baz" "cmd-one" [] [] none))])] "mcpServers") =
      some [("baz", toolJson (McpTool.mk "baz" "cmd-one" [] [] none))] ∧
    (AgentConfig.mk "a" "d" (AgentIdentity.mk "p" none none) []
        [McpTool.mk "baz" "cmd-two" [] [] none]).mcp =
      [] ++ McpTool.mk "baz" "cmd-two" [] [] none :: [] ∧
    (McpTool.mk "baz" "cmd-two" [] [] none).name ∉
      ([] : List McpTool).map McpTool.name ∧
    (∃ fs' out inner, CodexInstaller.install_tools ⟨true⟩ ["h"] (fun _ => none)
        (AgentConfig.mk "a" "d" (AgentIdentity.mk "p" none none) []
          [McpTool.mk "baz" "cmd-two" [] [] none])
        (FS.mk [(["h", "config.json"],
          FileData.jsonData (Json.obj [("mcpServers",
            Json.obj [("baz", toolJson (McpTool.mk "baz" "cmd-one" [] [] none))])]))]
          [["h"]]) = some fs' ∧
      fs'.readFile (configPath ["h"]) = some (FileData.jsonData (Json.obj out)) ∧
      lookupA out "mcpServers" = some (Json.obj inner) ∧
      lookupA inner (McpTool.mk "baz" "cmd-two" [] [] none).name =
        some (toolJson (McpTool.mk "baz" "cmd-two" [] [] none))) :=
  ⟨rfl, rfl, rfl, rfl, by simp,
    install_tools_overwrite ⟨true⟩ ["h"] (fun _ => none)
      (AgentConfig.mk "a" "d" (AgentIdentity.mk "p" none none) []
        [McpTool.mk "baz" "cmd-two" [] [] none])
      (FS.mk [(["h", "config.json"],
        FileData.jsonData (Json.obj [("mcpServers",
          Json.obj [("baz", toolJson (McpTool.mk "baz" "cmd-one" [] [] none))])]))]
        [["h"]])
      [("mcpServers", Json.obj [("baz", toolJson (McpTool.mk "baz" "cmd-one" [] [] none))])]
      [("baz", toolJson (McpTool.mk "baz" "cmd-one" [] [] none))]
      [] [] (McpTool.mk "baz" "cmd-two" [] [] none) rfl rfl rfl (by simp)⟩

/-- Claim C10: the `global` flag stored by `CodexInstaller` is never read —
every operation returns the same result whether the installer was built
with `global = true` or `global = false`. -/
theorem global_flag_unused (base : FPath) (parse : String → Option Json)
    (agent : AgentConfig) (agent_name : String) (fs : FS) :
    CodexInstaller.install_identity ⟨true⟩ base agent fs =
        CodexInstaller.install_identity ⟨false⟩ base agent fs ∧
    CodexInstaller.install_skills ⟨true⟩ base agent fs =
        CodexInstaller.install_skills ⟨false⟩ base agent fs ∧
    CodexInstaller.install_tools ⟨true⟩ base parse agent fs =
        CodexInstaller.install_tools ⟨false⟩ base parse agent fs ∧
    CodexInstaller.uninstall ⟨true⟩ base agent_name fs =
        CodexInstaller.uninstall ⟨false⟩ base agent_name fs :=
  ⟨rfl, rfl, rfl, rfl⟩

end Apm
